import Mathlib

/- Verification model of the complement_mcp git-aware local filesystem
backend (src/backend.rs, src/types.rs, src/error.rs).

Modelling conventions:
* A path is a list of components (List String); an absolute canonical path
  is such a list rooted at "/" (the empty list denotes "/").
* The filesystem is a finite association list from canonical absolute
  paths to nodes.  The model is symlink-free, so std canonicalize is
  modelled as lexical normalization of "." and ".." followed by an
  existence check, and std metadata resolves a raw path the same way.
* File contents and text are lists of characters; the byte length of a
  file is modelled as its character count.
* io errors other than NotFound are not modelled, and error payloads
  (paths, OS error sources) are dropped: FsError keeps only the variant.
* The parallel walkers of find_files and search_text are modelled by the
  serialized order in which filter-surviving matches reach the shared
  atomic counter respectively the shared lock; that order is the model's
  stand-in for a thread schedule. -/

inductive Node where
  | file (content : List Char)
  | dir
deriving DecidableEq, Repr

abbrev Fs := List (List String × Node)

def lookupFs : Fs → List String → Option Node
  | [], _ => none
  | (k, v) :: rest, p => if k = p then some v else lookupFs rest p

def insertFs (fs : Fs) (p : List String) (n : Node) : Fs :=
  (p, n) :: fs

def removeFs (fs : Fs) (p : List String) : Fs :=
  fs.filter (fun kv => !(kv.fst == p))

def isFileAt (fs : Fs) (p : List String) : Bool :=
  match lookupFs fs p with
  | some (Node.file _) => true
  | _ => false

/-- Lexical normalization of an absolute component list: "." is dropped,
".." removes the previous component ("/.." stays at "/").  `acc` is the
reversed prefix processed so far. -/
def normComps : List String → List String → List String
  | acc, [] => acc.reverse
  | acc, c :: rest =>
    if c = "." then normComps acc rest
    else if c = ".." then normComps acc.tail rest
    else normComps (c :: acc) rest

def normPath (p : List String) : List String :=
  normComps [] p

/-- Model of std fs::canonicalize in a symlink-free world: lexical
normalization plus the requirement that the result exists. -/
def canonPath (fs : Fs) (p : List String) : Option (List String) :=
  let n := normPath p
  if (lookupFs fs n).isSome then some n else none

/-- Model of std fs::metadata: resolves the raw path and reports the node;
none models io::ErrorKind::NotFound. -/
def metaAt (fs : Fs) (p : List String) : Option Node :=
  lookupFs fs (normPath p)

/-- A user-supplied path: absolute flag (Path::is_absolute) plus raw
components, which may contain "." and "..". -/
structure RawPath where
  absolute : Bool
  comps : List String
deriving DecidableEq, Repr

/-- Model of self.root.join(rel) / taking an absolute input as-is. -/
def joinPath (root : List String) (p : RawPath) : List String :=
  if p.absolute then p.comps else root ++ p.comps

/-- Model of Path::parent: none for "/" (the empty list), otherwise drop
the last component. -/
def rawParent (l : List String) : Option (List String) :=
  match l with
  | [] => none
  | _ :: _ => some l.dropLast

/-- Upward walk of LocalGitAwareFs::find_git_root, implemented on the
reversed component list so the recursion is structural; `gitWalk fs r`
walks the directory whose reversed components are `r` and its ancestors,
looking for a ".git" entry (Path::exists = metadata is ok). -/
def gitWalk (fs : Fs) : List String → Option (List String)
  | [] => if (lookupFs fs [".git"]).isSome then some [] else none
  | c :: rest =>
    let d := (c :: rest).reverse
    if (lookupFs fs (d ++ [".git"])).isSome then some d
    else gitWalk fs rest

/-- Model of LocalGitAwareFs::find_git_root (backend.rs lines 106-116). -/
def find_git_root (fs : Fs) (d : List String) : Option (List String) :=
  gitWalk fs d.reverse

/-- Error taxonomy of src/error.rs; payloads are dropped. -/
inductive FsError where
  | CanonicalizeRoot
  | CanonicalizePath
  | PathEscapesRepo
  | ListRootNotExist
  | ListRootNotDirectory
  | ListRootNotInGit
  | FindRootNotExist
  | FindRootNotDirectory
  | FindRootNotInGit
  | SearchRootNotInGit
  | SearchRootEscapesRepo
  | WritePathNotInGit
  | InvalidGlobPattern
  | InvalidFindFilesRegex
  | InvalidSearchRegex
  | RootNotDirectory
  | ReadFileLinesWithBytes
  | ReadFileBytesWithLines
  | StartLineMustBePositive
  | OpenFile
  | SeekFile
  | ReadFile
  | WriteFile
  | FileNotUtf8
  | FileMetadata
  | ReadLine
  | DeletePath
  | DeleteDirNonRecursive
  | DestinationExists
  | CreateParents
  | CopyPath
  | MovePath
  | CopyAcrossRepos
  | MoveAcrossRepos
deriving DecidableEq, Repr

/-- Model of Path::strip_prefix(root), returning the suffix when root is a
prefix of the path. -/
def strip_root (root p : List String) : Option (List String) :=
  if root.isPrefixOf p then some (p.drop root.length) else none

/-- strip_root with the source's unwrap_or_else(display) fallback. -/
def stripRootOr (root p : List String) : List String :=
  (strip_root root p).getD p

/-- Model of LocalGitAwareFs::resolve_path (backend.rs lines 54-76):
join relative inputs onto the root, canonicalize (requires existence),
and reject relative inputs whose canonical form leaves the root. -/
def resolve_path (fs : Fs) (root : List String) (rel : RawPath) :
    Except FsError (List String) :=
  let joined := joinPath root rel
  match canonPath fs joined with
  | none => Except.error FsError.CanonicalizePath
  | some canonical =>
    if !rel.absolute && !(root.isPrefixOf canonical) then
      Except.error FsError.PathEscapesRepo
    else
      Except.ok canonical

def DEFAULT_MAX_SEARCH_RESULTS : Nat := 200

def DEFAULT_SEARCH_CONTEXT_LINES : Nat := 2

def DEFAULT_MAX_READ_BYTES : Nat := 64 * 1024

def DEFAULT_MAX_READ_LINES : Nat := 200

def DEFAULT_LIST_MAX_RESULTS : Nat := 500

inductive RangeType where
  | bytes
  | lines
deriving DecidableEq, Repr

/-- Arguments of the read_file tool (types.rs ReadFileArgs). -/
structure ReadFileArgs where
  path : RawPath
  range_type : Option RangeType
  offset_bytes : Option Nat
  max_bytes : Option Nat
  start_line : Option Nat
  max_lines : Option Nat
deriving DecidableEq, Repr

structure FileRangeInfo where
  range_type : RangeType
  offset_bytes : Option Nat
  max_bytes : Option Nat
  start_line : Option Nat
  max_lines : Option Nat
deriving DecidableEq, Repr

structure FileChunkResult where
  path : List String
  content : List Char
  is_truncated : Bool
  range : FileRangeInfo
deriving DecidableEq, Repr

/-- Split a character list at every newline; a trailing newline yields a
trailing empty segment (plain split semantics). -/
def splitNl : List Char → List (List Char)
  | [] => [[]]
  | c :: rest =>
    if c = '\n' then [] :: splitNl rest
    else
      match splitNl rest with
      | [] => [[c]]
      | l :: ls => (c :: l) :: ls

/-- Strip one trailing carriage return. -/
def stripCR (l : List Char) : List Char :=
  if l.getLast? = some '\r' then l.dropLast else l

/-- Model of std BufRead::lines: lines are split on newline bytes; every
newline-terminated line is stripped of its "\n" or "\r\n" terminator; a
final unterminated line is kept verbatim; a file ending in a newline has
no extra empty line; the empty file has no lines. -/
def rustLines (content : List Char) : List (List Char) :=
  if content = [] then []
  else
    let parts := splitNl content
    if content.getLast? = some '\n' then parts.dropLast.map stripCR
    else parts.dropLast.map stripCR ++ parts.drop (parts.length - 1)

/-- The line-collecting loop of read_file_lines (backend.rs lines
1209-1228): count every line, skip lines before the 1-based start line,
append each collected line re-terminated with a single newline, and stop
with the truncated flag set once max_lines lines have been collected. -/
def readLinesGo (start_line max_lines : Nat) :
    List (List Char) → Nat → Nat → List Char → List Char × Bool
  | [], _, _, content => (content, false)
  | line :: rest, current, collected, content =>
    let current' := current + 1
    if current' < start_line then
      readLinesGo start_line max_lines rest current' collected content
    else
      let content' := content ++ line ++ ['\n']
      let collected' := collected + 1
      if max_lines ≤ collected' then (content', true)
      else readLinesGo start_line max_lines rest current' collected' content'

/-- Model of LocalGitAwareFs::read_file_lines (backend.rs lines
1190-1244). -/
def read_file_lines (fs : Fs) (root : List String) (abs_path : List String)
    (args : ReadFileArgs) : Except FsError FileChunkResult :=
  let start_line := args.start_line.getD 1
  let max_lines := args.max_lines.getD DEFAULT_MAX_READ_LINES
  if start_line = 0 then Except.error FsError.StartLineMustBePositive
  else
    match lookupFs fs abs_path with
    | some (Node.file content) =>
      let r := readLinesGo start_line max_lines (rustLines content) 0 0 []
      Except.ok
        { path := stripRootOr root abs_path
          content := r.1
          is_truncated := r.2
          range :=
            { range_type := RangeType.lines
              offset_bytes := none
              max_bytes := none
              start_line := some start_line
              max_lines := some max_lines } }
    | _ => Except.error FsError.OpenFile

/-- Model of LocalGitAwareFs::read_file_bytes (backend.rs lines
1137-1188); the not-UTF8 failure cannot occur in the character-based
content model. -/
def read_file_bytes (fs : Fs) (root : List String) (abs_path : List String)
    (args : ReadFileArgs) : Except FsError FileChunkResult :=
  let offset := args.offset_bytes.getD 0
  let max_bytes := args.max_bytes.getD DEFAULT_MAX_READ_BYTES
  match lookupFs fs abs_path with
  | some (Node.file content) =>
    let buf := (content.drop offset).take max_bytes
    let file_len := content.length
    Except.ok
      { path := stripRootOr root abs_path
        content := buf
        is_truncated := decide (offset + max_bytes < file_len)
        range :=
          { range_type := RangeType.bytes
            offset_bytes := some offset
            max_bytes := some max_bytes
            start_line := none
            max_lines := none } }
  | _ => Except.error FsError.OpenFile

/-- Model of LocalGitAwareFs::read_file (backend.rs lines 1110-1135):
resolve the path, derive the effective range type, reject mixed byte/line
parameters, then dispatch. -/
def read_file (fs : Fs) (root : List String) (args : ReadFileArgs) :
    Except FsError FileChunkResult :=
  match resolve_path fs root args.path with
  | Except.error e => Except.error e
  | Except.ok abs_path =>
    let has_byte_params := args.offset_bytes.isSome || args.max_bytes.isSome
    let has_line_params := args.start_line.isSome || args.max_lines.isSome
    let range_type :=
      match args.range_type with
      | some rt => rt
      | none => if has_line_params then RangeType.lines else RangeType.bytes
    match range_type with
    | RangeType.bytes =>
      if has_line_params then Except.error FsError.ReadFileLinesWithBytes
      else read_file_bytes fs root abs_path args
    | RangeType.lines =>
      if has_byte_params then Except.error FsError.ReadFileBytesWithLines
      else read_file_lines fs root abs_path args

/-- An entry produced by the ignore-aware walker, already relativized to
the traversal start (the start path itself is excluded, matching the
path == start_path skip in the source); glob filters are modelled as
compiled path predicates. -/
structure WalkEntry where
  path : String
  is_dir : Bool
deriving DecidableEq, Repr

/-- A list_files result entry (types.rs FileEntry); the optional
size/modified metadata enrichment (backend.rs lines 224-234) is omitted
as no claim concerns it. -/
structure FileEntry where
  path : String
  is_dir : Bool
deriving DecidableEq, Repr

def toFileEntry (e : WalkEntry) : FileEntry :=
  { path := e.path, is_dir := e.is_dir }

structure ListFilesResult where
  entries : List FileEntry
  has_more : Bool
deriving DecidableEq, Repr

/-- The per-entry filter of the list_files loop (backend.rs lines
199-216): directories are dropped unless include_dirs, then the exclude
matcher, then the include matcher. -/
def survivesList (include_dirs : Bool)
    (include_globs exclude_globs : Option (String → Bool))
    (e : WalkEntry) : Bool :=
  !(e.is_dir && !include_dirs)
    && (match exclude_globs with
        | some m => !(m e.path)
        | none => true)
    && (match include_globs with
        | some m => m e.path
        | none => true)

/-- The sequential pagination loop of list_files (backend.rs lines
181-247): count each filter-surviving entry, drop it while the counter is
at most skip, otherwise collect it, and stop with the hit-limit flag as
soon as the collection size reaches max_results. -/
def listGo (include_dirs : Bool)
    (include_globs exclude_globs : Option (String → Bool))
    (skip max_results : Nat) :
    List WalkEntry → Nat → List FileEntry → List FileEntry × Bool
  | [], _, acc => (acc.reverse, false)
  | e :: rest, seen, acc =>
    if survivesList include_dirs include_globs exclude_globs e then
      let seen' := seen + 1
      if seen' ≤ skip then
        listGo include_dirs include_globs exclude_globs skip max_results
          rest seen' acc
      else
        let acc' := toFileEntry e :: acc
        if max_results ≤ acc'.length then (acc'.reverse, true)
        else
          listGo include_dirs include_globs exclude_globs skip max_results
            rest seen' acc'
    else
      listGo include_dirs include_globs exclude_globs skip max_results
        rest seen acc

/-- Model of the list_files pagination (backend.rs lines 118-253), given
the walker's emission order; root resolution and the git check for
absolute roots happen before this loop and are modelled by resolve_path
and find_git_root. -/
def list_files (walk : List WalkEntry) (include_dirs : Bool)
    (include_globs exclude_globs : Option (String → Bool))
    (max_results skip : Nat) : ListFilesResult :=
  let r := listGo include_dirs include_globs exclude_globs skip max_results
    walk 0 []
  { entries := r.1, has_more := r.2 }

/-- Byte-lexicographic less-or-equal on byte strings, mirroring Rust's
Ord for String/[u8]. -/
def bytesLe : List Nat → List Nat → Bool
  | [], _ => true
  | _ :: _, [] => false
  | a :: as, b :: bs =>
    if a < b then true
    else if b < a then false
    else bytesLe as bs

/-- Strict byte-lexicographic order on byte strings. -/
def bytesLt : List Nat → List Nat → Bool
  | [], [] => false
  | [], _ :: _ => true
  | _ :: _, [] => false
  | a :: as, b :: bs =>
    if a < b then true
    else if b < a then false
    else bytesLt as bs

/-- A find_files match (types.rs FindFileMatch); the relative path is a
byte string so that the sort order is the source's byte-lexicographic
String order. -/
structure FindFileMatch where
  path : List Nat
  is_dir : Bool
deriving DecidableEq, Repr

def matchLe (a b : FindFileMatch) : Prop :=
  bytesLe a.path b.path = true

def matchLt (a b : FindFileMatch) : Prop :=
  bytesLt a.path b.path = true

instance : DecidableRel matchLe :=
  fun a b => instDecidableEqBool (bytesLe a.path b.path) true

structure FindFilesResult where
  matches_ : List FindFileMatch
  has_more : Bool
deriving DecidableEq, Repr

/-- Model of the find_files pagination (backend.rs lines 310-462).  σ is
the order in which filter-surviving, query-matching entries perform their
fetch_add on the shared seen counter: exactly the first
skip + max_results of them enter the shared collection, a later one sets
the hit-limit flag and stops the walk, and the walk visits such an entry
whenever more than skip + max_results matches exist in the tree.  The
collected matches are sorted by path before skip/take is applied; the
returned has_more is hit_limit or seen > total_needed, both of which hold
exactly when σ has more than skip + max_results elements. -/
def find_files (σ : List FindFileMatch) (skip max_results : Nat) :
    FindFilesResult :=
  let total_needed := skip + max_results
  if total_needed = 0 then { matches_ := [], has_more := false }
  else
    let accepted := σ.take total_needed
    let sorted := List.insertionSort matchLe accepted
    let total := sorted.length
    let sliced :=
      if total ≤ skip then [] else (sorted.drop skip).take max_results
    { matches_ := sliced, has_more := decide (total_needed < σ.length) }

/-- A search_text hit (types.rs SearchHit). -/
structure SearchHit where
  path : String
  line : Nat
  column : Nat
  line_text : List Char
  context_before : List (List Char)
  context_after : List (List Char)
deriving DecidableEq, Repr

structure SearchTextResult where
  hits : List SearchHit
  has_more : Bool
deriving DecidableEq, Repr

/-- The shared skip/limit bookkeeping of search_text (backend.rs lines
1424-1492) over the serialized order in which workers find per-line
matches: fetch_add the seen counter, drop the hit while the counter is at
most skip, re-check capacity under the lock before pushing (setting the
hit-limit flag when full), push, and set the hit-limit flag when the
collection reaches max_results. -/
def searchGo (skip max_results : Nat) :
    List SearchHit → Nat → List SearchHit → List SearchHit × Bool
  | [], _, acc => (acc.reverse, false)
  | h :: rest, seen, acc =>
    let seen' := seen + 1
    if seen' ≤ skip then searchGo skip max_results rest seen' acc
    else if max_results ≤ acc.length then (acc.reverse, true)
    else
      let acc' := h :: acc
      if max_results ≤ acc'.length then (acc'.reverse, true)
      else searchGo skip max_results rest seen' acc'

/-- Model of the search_text aggregation (backend.rs lines 1246-1510)
over the serialized match order σ; no sorting pass is applied and
has_more is the final hit-limit flag. -/
def search_text (σ : List SearchHit) (skip max_results : Nat) :
    SearchTextResult :=
  let r := searchGo skip max_results σ 0 []
  { hits := r.1, has_more := r.2 }

/-- Result of the stat tool (types.rs StatResult); the modified timestamp
is omitted as no claim concerns it. -/
structure StatResult where
  path : List String
  exists_ : Bool
  is_file : Bool
  is_dir : Bool
  size : Option Nat
deriving DecidableEq, Repr

/-- Model of LocalGitAwareFs::stat (backend.rs lines 465-541): metadata
first; on success canonicalize and enforce root containment for relative
inputs only; a missing path is a normal exists=false result. -/
def stat (fs : Fs) (root : List String) (path : RawPath) :
    Except FsError StatResult :=
  let resolved := joinPath root path
  match metaAt fs resolved with
  | some node =>
    match canonPath fs resolved with
    | none => Except.error FsError.CanonicalizePath
    | some canonical =>
      if !path.absolute && !(root.isPrefixOf canonical) then
        Except.error FsError.PathEscapesRepo
      else
        Except.ok
          { path := stripRootOr root canonical
            exists_ := true
            is_file := (match node with
              | Node.file _ => true
              | Node.dir => false)
            is_dir := (match node with
              | Node.file _ => false
              | Node.dir => true)
            size := (match node with
              | Node.file c => some c.length
              | Node.dir => none) }
  | none =>
    Except.ok
      { path :=
          if path.absolute then resolved
          else (strip_root root resolved).getD resolved
        exists_ := false
        is_file := false
        is_dir := false
        size := none }

/-- All non-empty prefixes of a component list, shortest first. -/
def ancestorsOf (l : List String) : List (List String) :=
  (List.range l.length).map (fun i => l.take (i + 1))

/-- Create each listed directory in turn: an existing directory is kept,
an existing file is an error, a missing entry becomes a directory. -/
def mkdirs : Fs → List (List String) → Except FsError Fs
  | fs, [] => Except.ok fs
  | fs, p :: rest =>
    match lookupFs fs p with
    | some (Node.file _) => Except.error FsError.CreateParents
    | some Node.dir => mkdirs fs rest
    | none => mkdirs (insertFs fs p Node.dir) rest

/-- Model of std fs::create_dir_all on the normalized path. -/
def create_dir_all (fs : Fs) (d : List String) : Except FsError Fs :=
  mkdirs fs (ancestorsOf (normPath d))

/-- The optional destination-parent creation step shared by create_file,
copy_path and move_path. -/
def ensure_parents (create : Bool) (fs : Fs) (target : List String) :
    Except FsError Fs :=
  if create then
    match rawParent target with
    | some parent => create_dir_all fs parent
    | none => Except.ok fs
  else Except.ok fs

/-- Arguments of the create_file tool (types.rs CreateFileArgs). -/
structure CreateFileArgs where
  path : RawPath
  content : Option (List Char)
  overwrite : Option Bool
  create_parents : Option Bool
deriving DecidableEq, Repr

structure CreateFileResult where
  path : List String
  created : Bool
  overwritten : Bool
deriving DecidableEq, Repr

/-- Model of LocalGitAwareFs::create_file (backend.rs lines 603-697):
optional parent creation; root containment (relative) or git membership
(absolute) checked on the canonical parent; an existing directory, or an
existing file without overwrite, is a destination-exists error; otherwise
write and report created = no prior node, overwritten = prior node. -/
def create_file (fs : Fs) (root : List String) (args : CreateFileArgs) :
    Except FsError CreateFileResult × Fs :=
  let overwrite := args.overwrite.getD false
  let create_parents := args.create_parents.getD false
  let resolved := joinPath root args.path
  match ensure_parents create_parents fs resolved with
  | Except.error e => (Except.error e, fs)
  | Except.ok fs1 =>
    let parent_check : Option FsError :=
      match rawParent resolved with
      | none => none
      | some parent =>
        match canonPath fs1 parent with
        | none => some FsError.CanonicalizePath
        | some canonical_parent =>
          if !args.path.absolute then
            if !(root.isPrefixOf canonical_parent) then
              some FsError.PathEscapesRepo
            else none
          else
            match find_git_root fs1 canonical_parent with
            | none => some FsError.WritePathNotInGit
            | some _ => none
    match parent_check with
    | some e => (Except.error e, fs1)
    | none =>
      match metaAt fs1 resolved with
      | some Node.dir => (Except.error FsError.DestinationExists, fs1)
      | some (Node.file _) =>
        if overwrite = false then (Except.error FsError.DestinationExists, fs1)
        else
          let fs2 := insertFs fs1 (normPath resolved)
            (Node.file (args.content.getD []))
          (Except.ok
            { path := stripRootOr root (normPath resolved)
              created := false
              overwritten := true }, fs2)
      | none =>
        let fs2 := insertFs fs1 (normPath resolved)
          (Node.file (args.content.getD []))
        (Except.ok
          { path := stripRootOr root (normPath resolved)
            created := true
            overwritten := false }, fs2)

/-- Arguments of the copy_path tool (types.rs CopyPathArgs). -/
structure CopyPathArgs where
  from_ : RawPath
  to_ : RawPath
  overwrite : Option Bool
  recursive : Option Bool
  create_parents : Option Bool
deriving DecidableEq, Repr

structure CopyPathResult where
  from_ : List String
  to_ : List String
  bytes_copied : Option Nat
  overwritten : Bool
deriving DecidableEq, Repr

/-- Model of LocalGitAwareFs::copy_path (backend.rs lines 791-907): the
source must be a regular file; both the canonical source and the
canonical destination parent must lie in a discoverable git repository
and the two repository roots must agree; an existing destination without
overwrite is an error; fs::copy returns the byte count of the source.
Note the absence of any root-containment check for relative inputs. -/
def copy_path (fs : Fs) (root : List String) (args : CopyPathArgs) :
    Except FsError CopyPathResult × Fs :=
  let overwrite := args.overwrite.getD false
  let create_parents := args.create_parents.getD true
  let from_resolved := joinPath root args.from_
  let to_resolved := joinPath root args.to_
  match metaAt fs from_resolved with
  | none => (Except.error FsError.FileMetadata, fs)
  | some Node.dir => (Except.error FsError.CopyPath, fs)
  | some (Node.file content) =>
    match canonPath fs from_resolved with
    | none => (Except.error FsError.CanonicalizePath, fs)
    | some from_canonical =>
      match find_git_root fs from_canonical with
      | none => (Except.error FsError.WritePathNotInGit, fs)
      | some from_repo_root =>
        match ensure_parents create_parents fs to_resolved with
        | Except.error e => (Except.error e, fs)
        | Except.ok fs1 =>
          let to_parent := (rawParent to_resolved).getD []
          match canonPath fs1 to_parent with
          | none => (Except.error FsError.CanonicalizePath, fs1)
          | some to_parent_canonical =>
            match find_git_root fs1 to_parent_canonical with
            | none => (Except.error FsError.WritePathNotInGit, fs1)
            | some to_repo_root =>
              if from_repo_root ≠ to_repo_root then
                (Except.error FsError.CopyAcrossRepos, fs1)
              else
                let existing_to := metaAt fs1 to_resolved
                if existing_to.isSome && !overwrite then
                  (Except.error FsError.DestinationExists, fs1)
                else
                  match existing_to with
                  | some Node.dir => (Except.error FsError.CopyPath, fs1)
                  | _ =>
                    let fs2 := insertFs fs1 (normPath to_resolved)
                      (Node.file content)
                    (Except.ok
                      { from_ := stripRootOr root from_canonical
                        to_ := stripRootOr root to_resolved
                        bytes_copied := some content.length
                        overwritten := existing_to.isSome }, fs2)

/-- Arguments of the move_path tool (types.rs MovePathArgs). -/
structure MovePathArgs where
  from_ : RawPath
  to_ : RawPath
  overwrite : Option Bool
  recursive : Option Bool
  create_parents : Option Bool
deriving DecidableEq, Repr

structure MovePathResult where
  from_ : List String
  to_ : List String
  existed : Bool
  overwritten : Bool
  recursive : Bool
deriving DecidableEq, Repr

/-- Model of LocalGitAwareFs::move_path (backend.rs lines 909-1037): a
missing source is an immediate non-error existed=false result, before any
safety check or filesystem change; otherwise the checks mirror copy_path
and the rename moves the node.  Note the absence of any root-containment
check for relative inputs. -/
def move_path (fs : Fs) (root : List String) (args : MovePathArgs) :
    Except FsError MovePathResult × Fs :=
  let overwrite := args.overwrite.getD false
  let create_parents := args.create_parents.getD true
  let from_resolved := joinPath root args.from_
  let to_resolved := joinPath root args.to_
  match metaAt fs from_resolved with
  | none =>
    (Except.ok
      { from_ := from_resolved
        to_ := to_resolved
        existed := false
        overwritten := false
        recursive := false }, fs)
  | some Node.dir => (Except.error FsError.MovePath, fs)
  | some (Node.file content) =>
    match canonPath fs from_resolved with
    | none => (Except.error FsError.CanonicalizePath, fs)
    | some from_canonical =>
      match find_git_root fs from_canonical with
      | none => (Except.error FsError.WritePathNotInGit, fs)
      | some from_repo_root =>
        match ensure_parents create_parents fs to_resolved with
        | Except.error e => (Except.error e, fs)
        | Except.ok fs1 =>
          let to_parent := (rawParent to_resolved).getD []
          match canonPath fs1 to_parent with
          | none => (Except.error FsError.CanonicalizePath, fs1)
          | some to_parent_canonical =>
            match find_git_root fs1 to_parent_canonical with
            | none => (Except.error FsError.WritePathNotInGit, fs1)
            | some to_repo_root =>
              if from_repo_root ≠ to_repo_root then
                (Except.error FsError.MoveAcrossRepos, fs1)
              else
                let existing_to := metaAt fs1 to_resolved
                if existing_to.isSome && !overwrite then
                  (Except.error FsError.DestinationExists, fs1)
                else
                  match existing_to with
                  | some Node.dir => (Except.error FsError.MovePath, fs1)
                  | _ =>
                    let fs2 := insertFs
                      (removeFs fs1 (normPath from_resolved))
                      (normPath to_resolved) (Node.file content)
                    (Except.ok
                      { from_ := stripRootOr root from_canonical
                        to_ := stripRootOr root to_resolved
                        existed := true
                        overwritten := existing_to.isSome
                        recursive := false }, fs2)

/-- listGo with the filter test already applied to the input: proof
helper. -/
def listGoS (skip max_results : Nat) :
    List WalkEntry → Nat → List FileEntry → List FileEntry × Bool
  | [], _, acc => (acc.reverse, false)
  | e :: rest, seen, acc =>
    let seen' := seen + 1
    if seen' ≤ skip then listGoS skip max_results rest seen' acc
    else
      let acc' := toFileEntry e :: acc
      if max_results ≤ acc'.length then (acc'.reverse, true)
      else listGoS skip max_results rest seen' acc'

/-- Join lines, re-terminating each with a single newline. -/
def joinNl (ls : List (List Char)) : List Char :=
  ls.foldr (fun l acc => l ++ '\n' :: acc) []

theorem bytesLe_cons {x y : Nat} {as bs : List Nat} :
    bytesLe (x :: as) (y :: bs) = true ↔
      x < y ∨ (x = y ∧ bytesLe as bs = true) := by
  simp only [bytesLe]
  split_ifs with h1 h2
  · simp [h1]
  · simp only [Bool.false_eq_true, false_iff]
    rintro (h | ⟨h, _⟩) <;> omega
  · have hxy : x = y := by omega
    subst hxy
    simp

theorem bytesLt_cons {x y : Nat} {as bs : List Nat} :
    bytesLt (x :: as) (y :: bs) = true ↔
      x < y ∨ (x = y ∧ bytesLt as bs = true) := by
  simp only [bytesLt]
  split_ifs with h1 h2
  · simp [h1]
  · simp only [Bool.false_eq_true, false_iff]
    rintro (h | ⟨h, _⟩) <;> omega
  · have hxy : x = y := by omega
    subst hxy
    simp

theorem bytesLe_total (a b : List Nat) :
    bytesLe a b = true ∨ bytesLe b a = true := by
  induction a generalizing b with
  | nil => exact Or.inl rfl
  | cons x as ih =>
    cases b with
    | nil => exact Or.inr rfl
    | cons y bs =>
      rcases Nat.lt_trichotomy x y with h | h | h
      · exact Or.inl (bytesLe_cons.mpr (Or.inl h))
      · subst h
        rcases ih bs with h2 | h2
        · exact Or.inl (bytesLe_cons.mpr (Or.inr ⟨rfl, h2⟩))
        · exact Or.inr (bytesLe_cons.mpr (Or.inr ⟨rfl, h2⟩))
      · exact Or.inr (bytesLe_cons.mpr (Or.inl h))

theorem bytesLe_trans {a b c : List Nat} (h1 : bytesLe a b = true)
    (h2 : bytesLe b c = true) : bytesLe a c = true := by
  induction a generalizing b c with
  | nil => rfl
  | cons x as ih =>
    cases b with
    | nil => simp [bytesLe] at h1
    | cons y bs =>
      cases c with
      | nil => simp [bytesLe] at h2
      | cons z cs =>
        rcases bytesLe_cons.mp h1 with g1 | ⟨g1, g1'⟩ <;>
          rcases bytesLe_cons.mp h2 with g2 | ⟨g2, g2'⟩
        · exact bytesLe_cons.mpr (Or.inl (by omega))
        · exact bytesLe_cons.mpr (Or.inl (by omega))
        · exact bytesLe_cons.mpr (Or.inl (by omega))
        · exact bytesLe_cons.mpr (Or.inr ⟨by omega, ih g1' g2'⟩)

theorem bytesLt_of_le_of_ne {a b : List Nat} (h : bytesLe a b = true)
    (hne : a ≠ b) : bytesLt a b = true := by
  induction a generalizing b with
  | nil =>
    cases b with
    | nil => exact absurd rfl hne
    | cons y bs => rfl
  | cons x as ih =>
    cases b with
    | nil => simp [bytesLe] at h
    | cons y bs =>
      rcases bytesLe_cons.mp h with h1 | ⟨h1, h2⟩
      · exact bytesLt_cons.mpr (Or.inl h1)
      · subst h1
        have hne' : as ≠ bs := fun e => hne (by rw [e])
        exact bytesLt_cons.mpr (Or.inr ⟨rfl, ih h2 hne'⟩)

theorem bytesLt_asymm {a b : List Nat} (h1 : bytesLt a b = true)
    (h2 : bytesLt b a = true) : False := by
  induction a generalizing b with
  | nil =>
    cases b with
    | nil => simp [bytesLt] at h1
    | cons y bs => simp [bytesLt] at h2
  | cons x as ih =>
    cases b with
    | nil => simp [bytesLt] at h1
    | cons y bs =>
      rcases bytesLt_cons.mp h1 with g1 | ⟨g1, g1'⟩ <;>
        rcases bytesLt_cons.mp h2 with g2 | ⟨g2, g2'⟩ <;> try omega
      exact ih g1' g2'

instance : IsTotal FindFileMatch matchLe :=
  ⟨fun a b => bytesLe_total a.path b.path⟩

instance : IsTrans FindFileMatch matchLe :=
  ⟨fun _ _ _ h1 h2 => bytesLe_trans h1 h2⟩

instance : IsAntisymm FindFileMatch matchLt :=
  ⟨fun _ _ h1 h2 => (bytesLt_asymm h1 h2).elim⟩

/-- Sorting by path is schedule-independent on match sets with distinct
paths: any two permutations of the same matches sort to the same list. -/
theorem insertionSort_eq_of_perm {l1 l2 : List FindFileMatch}
    (hp : l1.Perm l2) (hnd : (l1.map FindFileMatch.path).Nodup) :
    List.insertionSort matchLe l1 = List.insertionSort matchLe l2 := by
  have hs1 := List.sorted_insertionSort matchLe l1
  have hs2 := List.sorted_insertionSort matchLe l2
  have hperm : (List.insertionSort matchLe l1).Perm
      (List.insertionSort matchLe l2) :=
    (List.perm_insertionSort matchLe l1).trans
      (hp.trans (List.perm_insertionSort matchLe l2).symm)
  have hsym : ∀ {x y : FindFileMatch}, x.path ≠ y.path → y.path ≠ x.path :=
    fun h => h.symm
  have hne1 : List.Pairwise (fun a b : FindFileMatch => a.path ≠ b.path) l1 :=
    List.pairwise_map.mp hnd
  have hne2 : List.Pairwise (fun a b : FindFileMatch => a.path ≠ b.path) l2 :=
    (hp.pairwise_iff hsym).mp hne1
  have hne1' := ((List.perm_insertionSort matchLe l1).pairwise_iff hsym).mpr hne1
  have hne2' := ((List.perm_insertionSort matchLe l2).pairwise_iff hsym).mpr hne2
  have hlt1 : List.Sorted matchLt (List.insertionSort matchLe l1) :=
    (hs1.and hne1').imp (fun h => bytesLt_of_le_of_ne h.1 h.2)
  have hlt2 : List.Sorted matchLt (List.insertionSort matchLe l2) :=
    (hs2.and hne2').imp (fun h => bytesLt_of_le_of_ne h.1 h.2)
  exact List.eq_of_perm_of_sorted hperm hlt1 hlt2

theorem listGo_eq_filter (d : Bool) (inc exc : Option (String → Bool))
    (skip m : Nat) (l : List WalkEntry) :
    ∀ (seen : Nat) (acc : List FileEntry),
    listGo d inc exc skip m l seen acc =
      listGoS skip m (l.filter (survivesList d inc exc)) seen acc := by
  induction l with
  | nil => intro seen acc; rfl
  | cons e rest ih =>
    intro seen acc
    by_cases hs : survivesList d inc exc e = true
    · rw [List.filter_cons_of_pos hs]
      simp only [listGo, listGoS, hs, if_true]
      split_ifs <;> simp [ih]
    · rw [List.filter_cons_of_neg (by simpa using hs)]
      simp only [listGo, hs, if_false]
      exact ih seen acc

theorem listGoS_skip_phase (skip m : Nat) (l : List WalkEntry) :
    ∀ (seen : Nat), seen ≤ skip →
    listGoS skip m l seen [] =
      listGoS skip m (l.drop (skip - seen)) skip [] := by
  induction l with
  | nil =>
    intro seen h
    rw [List.drop_nil]
    simp only [listGoS]
  | cons e rest ih =>
    intro seen h
    rcases Nat.lt_or_ge seen skip with hlt | hge
    · have h1 : seen + 1 ≤ skip := hlt
      simp only [listGoS, if_pos h1]
      rw [ih (seen + 1) h1]
      have hk : skip - seen = (skip - (seen + 1)) + 1 := by omega
      rw [hk, List.drop_succ_cons]
    · have heq : seen = skip := Nat.le_antisymm h hge
      subst heq
      simp

theorem listGoS_collect (skip m : Nat) (l : List WalkEntry) :
    ∀ (seen : Nat) (acc : List FileEntry), skip ≤ seen → acc.length < m →
    listGoS skip m l seen acc =
      (acc.reverse ++ (l.map toFileEntry).take (m - acc.length),
       decide (m - acc.length ≤ l.length)) := by
  induction l with
  | nil =>
    intro seen acc hs hm
    simp only [listGoS, List.map_nil, List.take_nil, List.append_nil]
    congr 1
    symm
    simp only [List.length_nil, decide_eq_false_iff_not]
    omega
  | cons e rest ih =>
    intro seen acc hs hm
    have h1 : ¬ (seen + 1 ≤ skip) := by omega
    simp only [listGoS, if_neg h1]
    by_cases h2 : m ≤ (toFileEntry e :: acc).length
    · have hm1 : m - acc.length = 1 := by
        simp only [List.length_cons] at h2
        omega
      rw [if_pos h2]
      simp only [hm1, List.map_cons, List.take_succ_cons, List.take_zero,
        List.reverse_cons]
      congr 1
      symm
      simp only [decide_eq_true_eq, List.length_cons]
      omega
    · rw [if_neg h2]
      have hlen : (toFileEntry e :: acc).length < m := by omega
      rw [ih (seen + 1) _ (by omega) hlen]
      have hk : m - acc.length = (m - (toFileEntry e :: acc).length) + 1 := by
        simp only [List.length_cons]
        omega
      simp only [List.length_cons] at hk ⊢
      rw [hk]
      simp only [List.map_cons, List.take_succ_cons, List.reverse_cons,
        List.append_assoc, List.cons_append, List.nil_append,
        List.length_cons]
      congr 1
      rw [decide_eq_decide]
      omega

theorem listGoS_zero (skip : Nat) (l : List WalkEntry) (seen : Nat)
    (acc : List FileEntry) (hs : skip ≤ seen) :
    listGoS skip 0 l seen acc =
      (acc.reverse ++ (l.map toFileEntry).take 1, decide (1 ≤ l.length)) := by
  cases l with
  | nil => simp [listGoS]
  | cons e rest =>
    have h1 : ¬ (seen + 1 ≤ skip) := by omega
    simp [listGoS, h1, List.reverse_cons, Nat.succ_le_succ (Nat.zero_le _)]

/-- Closed form of the list_files pagination: the entries are the page of
size max(max_results, 1) starting after the first skip filter-surviving
entries, and has_more is set iff that page is full. -/
theorem list_files_spec (walk : List WalkEntry) (d : Bool)
    (inc exc : Option (String → Bool)) (m skip : Nat) :
    list_files walk d inc exc m skip =
      { entries :=
          (((walk.filter (survivesList d inc exc)).drop skip).map
            toFileEntry).take (Nat.max m 1)
        has_more :=
          decide (Nat.max m 1 ≤
            ((walk.filter (survivesList d inc exc)).drop skip).length) } := by
  unfold list_files
  rw [listGo_eq_filter]
  rw [listGoS_skip_phase skip m _ 0 (Nat.zero_le _)]
  simp only [Nat.sub_zero]
  rcases Nat.eq_zero_or_pos m with hm | hm
  · subst hm
    rw [listGoS_zero skip _ skip [] (le_refl _)]
    simp
  · rw [listGoS_collect skip m _ skip [] (le_refl _) (by simpa using hm)]
    have hmax : Nat.max m 1 = m := Nat.max_eq_left hm
    simp [hmax]

theorem searchGo_skip_phase (skip m : Nat) (l : List SearchHit) :
    ∀ (seen : Nat), seen ≤ skip →
    searchGo skip m l seen [] =
      searchGo skip m (l.drop (skip - seen)) skip [] := by
  induction l with
  | nil =>
    intro seen h
    rw [List.drop_nil]
    simp only [searchGo]
  | cons e rest ih =>
    intro seen h
    rcases Nat.lt_or_ge seen skip with hlt | hge
    · have h1 : seen + 1 ≤ skip := hlt
      simp only [searchGo, if_pos h1]
      rw [ih (seen + 1) h1]
      have hk : skip - seen = (skip - (seen + 1)) + 1 := by omega
      rw [hk, List.drop_succ_cons]
    · have heq : seen = skip := Nat.le_antisymm h hge
      subst heq
      simp

theorem searchGo_collect (skip m : Nat) (l : List SearchHit) :
    ∀ (seen : Nat) (acc : List SearchHit), skip ≤ seen → acc.length < m →
    searchGo skip m l seen acc =
      (acc.reverse ++ l.take (m - acc.length),
       decide (m - acc.length ≤ l.length)) := by
  induction l with
  | nil =>
    intro seen acc hs hm
    simp only [searchGo, List.take_nil, List.append_nil]
    congr 1
    symm
    simp only [List.length_nil, decide_eq_false_iff_not]
    omega
  | cons e rest ih =>
    intro seen acc hs hm
    have h1 : ¬ (seen + 1 ≤ skip) := by omega
    have h2 : ¬ (m ≤ acc.length) := by omega
    simp only [searchGo, if_neg h1, if_neg h2]
    by_cases h3 : m ≤ (e :: acc).length
    · have hm1 : m - acc.length = 1 := by
        simp only [List.length_cons] at h3
        omega
      rw [if_pos h3]
      simp only [hm1, List.take_succ_cons, List.take_zero, List.reverse_cons]
      congr 1
      symm
      simp only [decide_eq_true_eq, List.length_cons]
      omega
    · rw [if_neg h3]
      have hlen : (e :: acc).length < m := by omega
      rw [ih (seen + 1) _ (by omega) hlen]
      have hk : m - acc.length = (m - (acc.length + 1)) + 1 := by
        simp only [List.length_cons] at h3
        omega
      simp only [List.length_cons] at hk ⊢
      rw [hk]
      simp only [List.take_succ_cons, List.reverse_cons, List.append_assoc,
        List.cons_append, List.nil_append]
      congr 1
      rw [decide_eq_decide]
      omega

theorem searchGo_zero (skip : Nat) (l : List SearchHit) (seen : Nat)
    (acc : List SearchHit) (hs : skip ≤ seen) :
    searchGo skip 0 l seen acc = (acc.reverse, decide (1 ≤ l.length)) := by
  cases l with
  | nil => simp [searchGo]
  | cons e rest =>
    have h1 : ¬ (seen + 1 ≤ skip) := by omega
    simp [searchGo, h1]

/-- Closed form of the search_text pagination over a serialized match
order: the hits are the first max_results matches after the first skip,
and has_more is set iff at least max(max_results, 1) matches remained
after the skipped ones. -/
theorem search_text_spec (σ : List SearchHit) (skip m : Nat) :
    search_text σ skip m =
      { hits := (σ.drop skip).take m
        has_more := decide (Nat.max m 1 ≤ (σ.drop skip).length) } := by
  unfold search_text
  rw [searchGo_skip_phase skip m _ 0 (Nat.zero_le _)]
  simp only [Nat.sub_zero]
  rcases Nat.eq_zero_or_pos m with hm | hm
  · subst hm
    rw [searchGo_zero skip _ skip [] (le_refl _)]
    simp
  · rw [searchGo_collect skip m _ skip [] (le_refl _) (by simpa using hm)]
    have hmax : Nat.max m 1 = m := Nat.max_eq_left hm
    simp [hmax]

theorem readLinesGo_skip_phase (start maxL : Nat) (ls : List (List Char)) :
    ∀ (current collected : Nat) (content : List Char),
    current + 1 < start →
    readLinesGo start maxL ls current collected content =
      readLinesGo start maxL (ls.drop (start - current - 1)) (start - 1)
        collected content := by
  induction ls with
  | nil =>
    intro current collected content h
    rw [List.drop_nil]
    simp only [readLinesGo]
  | cons line rest ih =>
    intro current collected content h
    simp only [readLinesGo, if_pos h]
    rcases Nat.lt_or_ge (current + 2) start with hlt | hge
    · rw [ih (current + 1) collected content hlt]
      have hk : start - current - 1 = (start - (current + 1) - 1) + 1 := by
        omega
      rw [hk, List.drop_succ_cons]
    · have h2 : start - current - 1 = 1 := by omega
      have h3 : start - 1 = current + 1 := by omega
      rw [h2, h3, List.drop_succ_cons, List.drop_zero]

theorem readLinesGo_collect (start maxL : Nat) (ls : List (List Char)) :
    ∀ (current collected : Nat) (content : List Char),
    start ≤ current + 1 → collected < maxL →
    readLinesGo start maxL ls current collected content =
      (content ++ joinNl (ls.take (maxL - collected)),
       decide (maxL - collected ≤ ls.length)) := by
  induction ls with
  | nil =>
    intro current collected content hs hm
    simp only [readLinesGo, List.take_nil, joinNl, List.foldr_nil,
      List.append_nil]
    congr 1
    symm
    simp only [List.length_nil, decide_eq_false_iff_not]
    omega
  | cons line rest ih =>
    intro current collected content hs hm
    have h1 : ¬ (current + 1 < start) := by omega
    simp only [readLinesGo, if_neg h1]
    by_cases h2 : maxL ≤ collected + 1
    · have hm1 : maxL - collected = 1 := by omega
      rw [if_pos h2]
      simp only [hm1, List.take_succ_cons, List.take_zero, joinNl,
        List.foldr_cons, List.foldr_nil, List.append_assoc]
      congr 1
      symm
      simp only [decide_eq_true_eq, List.length_cons]
      omega
    · rw [if_neg h2]
      rw [ih (current + 1) (collected + 1) _ (by omega) (by omega)]
      have hk : maxL - collected = (maxL - (collected + 1)) + 1 := by omega
      rw [hk]
      simp only [List.take_succ_cons, joinNl, List.foldr_cons,
        List.append_assoc, List.cons_append, List.nil_append]
      congr 1
      rw [decide_eq_decide]
      simp only [List.length_cons]
      omega

theorem lookupFs_insertFs (fs : Fs) (p q : List String) (n : Node) :
    lookupFs (insertFs fs p n) q = if p = q then some n else lookupFs fs q :=
  rfl

theorem mkdirs_isFileAt (ps : List (List String)) :
    ∀ (fs fs' : Fs), mkdirs fs ps = Except.ok fs' →
    ∀ q, isFileAt fs' q = isFileAt fs q := by
  induction ps with
  | nil =>
    intro fs fs' h q
    simp only [mkdirs] at h
    cases h
    rfl
  | cons p rest ih =>
    intro fs fs' h q
    simp only [mkdirs] at h
    split at h
    · exact absurd h (by simp)
    · exact ih fs fs' h q
    · rename_i hnone
      rw [ih _ fs' h q]
      unfold isFileAt
      rw [lookupFs_insertFs]
      split_ifs with hpq
      · subst hpq
        rw [hnone]
      · rfl

theorem ensure_parents_isFileAt (c : Bool) (fs : Fs) (t : List String)
    (fs' : Fs) (h : ensure_parents c fs t = Except.ok fs') (q : List String) :
    isFileAt fs' q = isFileAt fs q := by
  unfold ensure_parents at h
  split at h
  · unfold create_dir_all at h
    split at h
    · exact mkdirs_isFileAt _ _ _ h q
    · cases h
      rfl
  · cases h
    rfl

/-- C1 (amended): operations that resolve through resolve_path, such as
read_file, do fail with a path-escape error whenever a relative input
canonicalizes to a path that does not have Root as a prefix; copy_path
and move_path, however, perform no such root-containment check (see the
counterexample). -/
theorem C1_relative_escape_rejected (fs : Fs) (root : List String)
    (rel : RawPath) (c : List String) (rt : Option RangeType)
    (ob mb sl ml : Option Nat)
    (habs : rel.absolute = false)
    (hc : canonPath fs (joinPath root rel) = some c)
    (hesc : root.isPrefixOf c = false) :
    resolve_path fs root rel = Except.error FsError.PathEscapesRepo ∧
    read_file fs root ⟨rel, rt, ob, mb, sl, ml⟩ =
      Except.error FsError.PathEscapesRepo := by
  have h1 : resolve_path fs root rel = Except.error FsError.PathEscapesRepo := by
    simp [resolve_path, hc, habs, hesc]
  exact ⟨h1, by simp [read_file, h1]⟩

/-- C1 witness: a relative path whose canonical form escapes the root is
rejected by resolve_path and read_file. -/
theorem C1_relative_escape_rejected_witness :
    resolve_path
      [(["r"], Node.dir), (["out"], Node.dir), (["out", ".git"], Node.dir),
        (["out", "f"], Node.file ['h'])]
      ["r"] ⟨false, ["..", "out", "f"]⟩ =
      Except.error FsError.PathEscapesRepo ∧
    read_file
      [(["r"], Node.dir), (["out"], Node.dir), (["out", ".git"], Node.dir),
        (["out", "f"], Node.file ['h'])]
      ["r"] ⟨⟨false, ["..", "out", "f"]⟩, none, none, none, none, none⟩ =
      Except.error FsError.PathEscapesRepo :=
  C1_relative_escape_rejected _ _ _ ["out", "f"] none none none none none
    rfl rfl rfl

/-- C1 counterexample: copy_path succeeds on a relative source and a
relative destination whose canonical forms escape the root (they lie in a
different git repository), instead of failing with a path-escape error. -/
theorem C1_copy_path_escapes_without_error :
    (copy_path
      [(["r"], Node.dir), (["out"], Node.dir), (["out", ".git"], Node.dir),
        (["out", "f"], Node.file ['h', 'i'])]
      ["r"]
      { from_ := ⟨false, ["..", "out", "f"]⟩
        to_ := ⟨false, ["..", "out", "g"]⟩
        overwrite := none, recursive := none, create_parents := none }).1 =
      Except.ok
        { from_ := ["out", "f"], to_ := ["..", "out", "g"]
          bytes_copied := some 2, overwritten := false } ∧
    canonPath
      [(["r"], Node.dir), (["out"], Node.dir), (["out", ".git"], Node.dir),
        (["out", "f"], Node.file ['h', 'i'])]
      (joinPath ["r"] ⟨false, ["..", "out", "f"]⟩) = some ["out", "f"] ∧
    (["r"].isPrefixOf ["out", "f"]) = false :=
  ⟨rfl, rfl, rfl⟩

/-- C8: a move_path call whose source does not exist returns a non-error
result with existed = false and overwritten = false, leaves the
filesystem unchanged, and does so for every destination and flag
combination, hence before any containment, repository or mutation step. -/
theorem C8_move_missing_source (fs : Fs) (root : List String)
    (args : MovePathArgs)
    (h : metaAt fs (joinPath root args.from_) = none) :
    move_path fs root args =
      (Except.ok
        { from_ := joinPath root args.from_
          to_ := joinPath root args.to_
          existed := false, overwritten := false, recursive := false }, fs) := by
  simp [move_path, h]

/-- C8 witness: moving a missing source towards an escaping destination
still returns the non-error existed=false result and changes nothing. -/
theorem C8_move_missing_source_witness :
    move_path [(["r"], Node.dir)] ["r"]
      { from_ := ⟨false, ["missing"]⟩
        to_ := ⟨false, ["..", "..", "etc", "passwd"]⟩
        overwrite := none, recursive := none, create_parents := none } =
      (Except.ok
        { from_ := ["r", "missing"]
          to_ := ["r", "..", "..", "etc", "passwd"]
          existed := false, overwritten := false, recursive := false },
        [(["r"], Node.dir)]) :=
  C8_move_missing_source _ _ _ rfl

/-- C9: stat enforces root containment only for relative paths that
exist: a missing relative path is a normal exists=false result even when
it would resolve outside Root, while an existing relative path whose
canonical form lies outside Root is a path-escape error. -/
theorem C9_stat_containment_only_when_exists (fs : Fs)
    (root comps : List String) :
    (metaAt fs (root ++ comps) = none →
      stat fs root ⟨false, comps⟩ =
        Except.ok
          { path := (strip_root root (root ++ comps)).getD (root ++ comps)
            exists_ := false, is_file := false, is_dir := false
            size := none }) ∧
    (∀ (node : Node), metaAt fs (root ++ comps) = some node →
      root.isPrefixOf (normPath (root ++ comps)) = false →
      stat fs root ⟨false, comps⟩ = Except.error FsError.PathEscapesRepo) := by
  constructor
  · intro h
    simp [stat, joinPath, h]
  · intro node h hpre
    have hcp : canonPath fs (root ++ comps) =
        some (normPath (root ++ comps)) := by
      unfold metaAt at h
      simp [canonPath, h]
    simp [stat, joinPath, h, hcp, hpre]

/-- C9 witness: the same escaping relative path "../x" is a normal
exists=false stat result while "x" is absent, and a path-escape error
once "x" exists. -/
theorem C9_stat_containment_only_when_exists_witness :
    stat [(["r"], Node.dir)] ["r"] ⟨false, ["..", "x"]⟩ =
      Except.ok
        { path := ["..", "x"], exists_ := false, is_file := false
          is_dir := false, size := none } ∧
    stat [(["r"], Node.dir), (["x"], Node.file ['s'])] ["r"]
      ⟨false, ["..", "x"]⟩ = Except.error FsError.PathEscapesRepo :=
  ⟨(C9_stat_containment_only_when_exists [(["r"], Node.dir)] ["r"]
      ["..", "x"]).1 rfl,
   (C9_stat_containment_only_when_exists
      [(["r"], Node.dir), (["x"], Node.file ['s'])] ["r"] ["..", "x"]).2
      (Node.file ['s']) rfl rfl⟩

/-- C2 (amended): find_files pages are always sorted by path, and for a
fixed query, skip and max_results over an unchanged tree the page is
schedule-independent whenever the tree holds at most skip + max_results
surviving matches; with more matches the accepted subset depends on the
schedule (see the counterexample). -/
theorem C2_find_files_deterministic_pages :
    (∀ (σ1 σ2 : List FindFileMatch) (skip m : Nat),
      σ1.Perm σ2 → (σ1.map FindFileMatch.path).Nodup →
      σ1.length ≤ skip + m →
      find_files σ1 skip m = find_files σ2 skip m) ∧
    (∀ (σ : List FindFileMatch) (skip m : Nat),
      List.Sorted matchLe (find_files σ skip m).matches_) := by
  constructor
  · intro σ1 σ2 skip m hp hnd hlen
    have hlen2 : σ2.length ≤ skip + m := hp.length_eq ▸ hlen
    unfold find_files
    rcases Nat.eq_zero_or_pos (skip + m) with h0 | h0
    · simp [h0]
    · have hne : skip + m ≠ 0 := by omega
      simp only [if_neg hne]
      rw [List.take_of_length_le hlen, List.take_of_length_le hlen2]
      rw [insertionSort_eq_of_perm hp hnd]
      rw [hp.length_eq]
  · intro σ skip m
    simp only [find_files]
    split_ifs with h0 h1
    · exact List.sorted_nil
    · exact List.sorted_nil
    · exact List.Pairwise.sublist
        ((List.take_sublist m _).trans (List.drop_sublist skip _))
        (List.sorted_insertionSort matchLe _)

/-- C2 witness: two schedule orders of the same two-match tree yield the
same page when the match count is within skip + max_results, and a page
is sorted by path. -/
theorem C2_find_files_deterministic_pages_witness :
    find_files
      [({ path := [1], is_dir := false } : FindFileMatch),
        { path := [0], is_dir := false }] 0 3 =
      find_files
        [({ path := [0], is_dir := false } : FindFileMatch),
          { path := [1], is_dir := false }] 0 3 ∧
    List.Sorted matchLe
      (find_files
        [({ path := [2], is_dir := false } : FindFileMatch),
          { path := [0], is_dir := false }, { path := [1], is_dir := false }]
        0 2).matches_ :=
  ⟨C2_find_files_deterministic_pages.1 _ _ 0 3 (by decide) (by decide)
      (by decide),
   C2_find_files_deterministic_pages.2 _ 0 2⟩

/-- C2 counterexample: with three matches, skip = 0 and max_results = 2,
two schedule orders of the same unchanged tree produce different pages,
because only the first skip + max_results matches to reach the shared
counter are kept before sorting. -/
theorem C2_find_files_schedule_dependent_page :
    List.Perm
      [({ path := [0], is_dir := false } : FindFileMatch),
        { path := [1], is_dir := false }, { path := [2], is_dir := false }]
      [({ path := [2], is_dir := false } : FindFileMatch),
        { path := [1], is_dir := false }, { path := [0], is_dir := false }] ∧
    find_files
      [({ path := [0], is_dir := false } : FindFileMatch),
        { path := [1], is_dir := false }, { path := [2], is_dir := false }]
      0 2 ≠
      find_files
        [({ path := [2], is_dir := false } : FindFileMatch),
          { path := [1], is_dir := false }, { path := [0], is_dir := false }]
        0 2 :=
  ⟨by decide, by decide⟩

/-- C3 (amended): with max_results = 0, find_files returns an empty page
(and when skip = 0 returns without inspecting the tree at all), and
search_text returns no hits; list_files, however, still traverses and
returns the first filter-surviving entry after skip, if any (see the
counterexample). -/
theorem C3_max_results_zero :
    (∀ (σ : List FindFileMatch),
      find_files σ 0 0 = { matches_ := [], has_more := false }) ∧
    (∀ (σ : List FindFileMatch) (skip : Nat),
      (find_files σ skip 0).matches_ = []) ∧
    (∀ (σ : List SearchHit) (skip : Nat),
      (search_text σ skip 0).hits = []) ∧
    (∀ (walk : List WalkEntry) (d : Bool)
      (inc exc : Option (String → Bool)) (skip : Nat),
      (list_files walk d inc exc 0 skip).entries =
        (((walk.filter (survivesList d inc exc)).drop skip).map
          toFileEntry).take 1) := by
  refine ⟨fun σ => rfl, fun σ skip => ?_, fun σ skip => ?_,
    fun walk d inc exc skip => ?_⟩
  · simp only [find_files]
    split_ifs with h0 h1 <;> rfl
  · rw [search_text_spec]
    rfl
  · rw [list_files_spec]
    rfl

/-- C3 counterexample: list_files with max_results = 0 on a one-file tree
returns that entry (with has_more = true), not an empty result. -/
theorem C3_list_files_zero_returns_entry :
    list_files [{ path := "a", is_dir := false }] false none none 0 0 =
      { entries := [{ path := "a", is_dir := false }], has_more := true } ∧
    ([{ path := "a", is_dir := false }] : List FileEntry) ≠ [] :=
  ⟨rfl, by decide⟩

/-- C4 (amended): find_files returns at most max_results matches and its
has_more holds iff skip + max_results is positive and strictly more than
skip + max_results surviving matches exist; list_files returns at most
max(max_results, 1) entries and search_text at most max_results hits, and
for both has_more holds iff at least max(max_results, 1) surviving
matches remained after the skipped ones — so at an exact boundary
has_more is true without strictly more matches existing (see the
counterexample). -/
theorem C4_pagination_bounds :
    (∀ (σ : List FindFileMatch) (skip m : Nat),
      (find_files σ skip m).matches_.length ≤ m) ∧
    (∀ (σ : List FindFileMatch) (skip m : Nat),
      (find_files σ skip m).has_more =
        (decide (0 < skip + m) && decide (skip + m < σ.length))) ∧
    (∀ (walk : List WalkEntry) (d : Bool)
      (inc exc : Option (String → Bool)) (m skip : Nat),
      (list_files walk d inc exc m skip).entries.length ≤ Nat.max m 1) ∧
    (∀ (walk : List WalkEntry) (d : Bool)
      (inc exc : Option (String → Bool)) (m skip : Nat),
      (list_files walk d inc exc m skip).has_more =
        decide (Nat.max m 1 ≤
          ((walk.filter (survivesList d inc exc)).drop skip).length)) ∧
    (∀ (σ : List SearchHit) (skip m : Nat),
      (search_text σ skip m).hits.length ≤ m) ∧
    (∀ (σ : List SearchHit) (skip m : Nat),
      (search_text σ skip m).has_more =
        decide (Nat.max m 1 ≤ (σ.drop skip).length)) := by
  refine ⟨fun σ skip m => ?_, fun σ skip m => ?_,
    fun walk d inc exc m skip => ?_, fun walk d inc exc m skip => ?_,
    fun σ skip m => ?_, fun σ skip m => ?_⟩
  · simp only [find_files]
    split_ifs with h0 h1
    · simp
    · simp
    · exact List.length_take_le m _
  · simp only [find_files]
    split_ifs with h0 h1
    · simp [h0]
    · simp [Nat.pos_of_ne_zero h0]
    · simp [Nat.pos_of_ne_zero h0]
  · rw [list_files_spec]
    exact List.length_take_le _ _
  · rw [list_files_spec]
  · rw [search_text_spec]
    exact List.length_take_le _ _
  · rw [search_text_spec]

/-- C4 counterexample: list_files with max_results = 1 over a tree with
exactly one surviving match after skip reports has_more = true although
strictly more than one match does not exist. -/
theorem C4_has_more_at_exact_boundary :
    (list_files [{ path := "a", is_dir := false }] false none none 1 0).has_more
      = true ∧
    (([({ path := "a", is_dir := false } : WalkEntry)].filter
        (survivesList false none none)).drop 0).length = 1 ∧
    ¬ (1 < 1) :=
  ⟨rfl, rfl, by omega⟩

/-- C5 (amended): read_file in line mode skips lines until the 1-based
start_line and collects up to max_lines lines, each re-terminated with a
single newline; truncated is reported iff at least max_lines lines were
available at or after start_line, i.e. whenever the cap was reached, even
when the file ends exactly there — so start_line = 2, max_lines = 1 on a
3-line file returns exactly line 2, newline-terminated, with
truncated = true (see the counterexample). -/
theorem C5_read_lines_window (lines : List (List Char)) (start maxL : Nat)
    (h1 : 1 ≤ start) (h2 : 1 ≤ maxL) :
    readLinesGo start maxL lines 0 0 [] =
      (joinNl ((lines.drop (start - 1)).take maxL),
       decide (maxL ≤ (lines.drop (start - 1)).length)) := by
  rcases Nat.lt_or_ge 1 start with hgt | hle
  · rw [readLinesGo_skip_phase start maxL lines 0 0 [] (by omega)]
    have hd : start - 0 - 1 = start - 1 := by omega
    rw [hd]
    rw [readLinesGo_collect start maxL _ (start - 1) 0 [] (by omega)
      (by omega)]
    simp
  · have hstart : start = 1 := by omega
    subst hstart
    rw [readLinesGo_collect 1 maxL lines 0 0 [] (by omega) (by omega)]
    simp

/-- C5 witness: start_line = 2, max_lines = 1 on the 3-line file
["a"; "b"; "c"] returns exactly the second line, newline-terminated,
with the truncated flag set. -/
theorem C5_read_lines_window_witness :
    readLinesGo 2 1 [['a'], ['b'], ['c']] 0 0 [] = (['b', '\n'], true) :=
  (C5_read_lines_window [['a'], ['b'], ['c']] 2 1 (by omega) (by omega)).trans
    (by decide)

/-- C5 counterexample: read_file with start_line = 2, max_lines = 1 on a
3-line file returns line 2 newline-terminated but with truncated = true,
not truncated = false as claimed. -/
theorem C5_three_line_file_truncated :
    read_file
      [(["r"], Node.dir),
        (["r", "f"], Node.file ['l', '1', '\n', 'l', '2', '\n', 'l', '3', '\n'])]
      ["r"]
      { path := ⟨false, ["f"]⟩, range_type := none, offset_bytes := none
        max_bytes := none, start_line := some 2, max_lines := some 1 } =
      Except.ok
        { path := ["f"], content := ['l', '2', '\n'], is_truncated := true
          range :=
            { range_type := RangeType.lines, offset_bytes := none
              max_bytes := none, start_line := some 2, max_lines := some 1 } } ∧
    rustLines ['l', '1', '\n', 'l', '2', '\n', 'l', '3', '\n'] =
      [['l', '1'], ['l', '2'], ['l', '3']] :=
  ⟨rfl, rfl⟩

/-- C6 (amended): once the path has been resolved (resolution itself
performs canonicalization and runs first), a read_file call that supplies
both byte-range and line-range parameters, or start_line = 0 in line
mode, fails with the corresponding usage error before the file is opened
or read; when resolution fails, the resolution error is returned instead
of the usage error (see the counterexample). -/
theorem C6_usage_errors_after_resolution (fs : Fs) (root : List String)
    (a : ReadFileArgs) (c : List String)
    (hres : resolve_path fs root a.path = Except.ok c) :
    ((a.offset_bytes.isSome || a.max_bytes.isSome) = true →
      (a.start_line.isSome || a.max_lines.isSome) = true →
      read_file fs root a =
        Except.error
          (match a.range_type with
            | some RangeType.bytes => FsError.ReadFileLinesWithBytes
            | _ => FsError.ReadFileBytesWithLines)) ∧
    (a.start_line = some 0 →
      (a.offset_bytes.isSome || a.max_bytes.isSome) = false →
      a.range_type ≠ some RangeType.bytes →
      read_file fs root a = Except.error FsError.StartLineMustBePositive) := by
  constructor
  · intro hb hl
    simp only [read_file, hres]
    rcases hrt : a.range_type with _ | rt
    · simp [hrt, hl, hb]
    · cases rt
      · simp [hrt, hl]
      · simp [hrt, hb]
  · intro hsl hb hrt
    have hl : (a.start_line.isSome || a.max_lines.isSome) = true := by
      rw [hsl]
      simp
    simp only [read_file, hres]
    rcases hrt2 : a.range_type with _ | rt
    · simp only [hrt2, hl, if_true, hb, if_false, Bool.false_eq_true]
      simp only [read_file_lines, hsl]
      rfl
    · cases rt
      · exact absurd hrt2 hrt
      · simp only [hrt2, hb, Bool.false_eq_true, if_false]
        simp only [read_file_lines, hsl]
        rfl

/-- C6 witness: with an existing path, mixed byte/line parameters fail
with the usage error, and start_line = 0 in line mode fails with the
positive-start-line error. -/
theorem C6_usage_errors_after_resolution_witness :
    read_file [(["r"], Node.dir), (["r", "f"], Node.file ['x'])] ["r"]
      { path := ⟨false, ["f"]⟩, range_type := none, offset_bytes := some 0
        max_bytes := none, start_line := some 1, max_lines := none } =
      Except.error FsError.ReadFileBytesWithLines ∧
    read_file [(["r"], Node.dir), (["r", "f"], Node.file ['x'])] ["r"]
      { path := ⟨false, ["f"]⟩, range_type := none, offset_bytes := none
        max_bytes := none, start_line := some 0, max_lines := none } =
      Except.error FsError.StartLineMustBePositive :=
  ⟨(C6_usage_errors_after_resolution
      [(["r"], Node.dir), (["r", "f"], Node.file ['x'])] ["r"]
      { path := ⟨false, ["f"]⟩, range_type := none, offset_bytes := some 0
        max_bytes := none, start_line := some 1, max_lines := none }
      ["r", "f"] rfl).1 rfl rfl,
   (C6_usage_errors_after_resolution
      [(["r"], Node.dir), (["r", "f"], Node.file ['x'])] ["r"]
      { path := ⟨false, ["f"]⟩, range_type := none, offset_bytes := none
        max_bytes := none, start_line := some 0, max_lines := none }
      ["r", "f"] rfl).2 rfl rfl (by decide)⟩

/-- C6 counterexample: a read_file call that supplies both byte-range and
line-range parameters on a path that fails to resolve returns the
canonicalization error, not a usage error. -/
theorem C6_resolution_failure_precedes_usage_error :
    read_file [] ["r"]
      { path := ⟨false, ["nope"]⟩, range_type := none, offset_bytes := some 0
        max_bytes := none, start_line := some 1, max_lines := none } =
      Except.error FsError.CanonicalizePath ∧
    FsError.CanonicalizePath ≠ FsError.ReadFileBytesWithLines ∧
    FsError.CanonicalizePath ≠ FsError.ReadFileLinesWithBytes ∧
    FsError.CanonicalizePath ≠ FsError.StartLineMustBePositive :=
  ⟨rfl, by decide, by decide, by decide⟩

/-- C7 (amended): when the source is a regular file and both the
canonical source and the canonical destination parent resolve into
discoverable repository roots, copy_path and move_path fail with a
cross-repository error whenever the two repository roots differ; within
one repository a copy of a regular file to a fresh destination (or with
overwrite permission; an existing destination without overwrite is a
destination-exists error, see the counterexample) succeeds and reports
bytes_copied equal to the source file size. -/
theorem C7_same_repo_requirement (fs : Fs) (root : List String) :
    (∀ (args : CopyPathArgs) (content : List Char)
      (fc ra : List String) (fs1 : Fs) (tpc rb : List String),
      metaAt fs (joinPath root args.from_) = some (Node.file content) →
      canonPath fs (joinPath root args.from_) = some fc →
      find_git_root fs fc = some ra →
      ensure_parents (args.create_parents.getD true) fs
        (joinPath root args.to_) = Except.ok fs1 →
      canonPath fs1 ((rawParent (joinPath root args.to_)).getD []) =
        some tpc →
      find_git_root fs1 tpc = some rb →
      ra ≠ rb →
      (copy_path fs root args).1 = Except.error FsError.CopyAcrossRepos) ∧
    (∀ (args : MovePathArgs) (content : List Char)
      (fc ra : List String) (fs1 : Fs) (tpc rb : List String),
      metaAt fs (joinPath root args.from_) = some (Node.file content) →
      canonPath fs (joinPath root args.from_) = some fc →
      find_git_root fs fc = some ra →
      ensure_parents (args.create_parents.getD true) fs
        (joinPath root args.to_) = Except.ok fs1 →
      canonPath fs1 ((rawParent (joinPath root args.to_)).getD []) =
        some tpc →
      find_git_root fs1 tpc = some rb →
      ra ≠ rb →
      (move_path fs root args).1 = Except.error FsError.MoveAcrossRepos) ∧
    (∀ (args : CopyPathArgs) (content : List Char)
      (fc ra : List String) (fs1 : Fs) (tpc : List String),
      metaAt fs (joinPath root args.from_) = some (Node.file content) →
      canonPath fs (joinPath root args.from_) = some fc →
      find_git_root fs fc = some ra →
      ensure_parents (args.create_parents.getD true) fs
        (joinPath root args.to_) = Except.ok fs1 →
      canonPath fs1 ((rawParent (joinPath root args.to_)).getD []) =
        some tpc →
      find_git_root fs1 tpc = some ra →
      metaAt fs1 (joinPath root args.to_) = none →
      (copy_path fs root args).1 =
        Except.ok
          { from_ := stripRootOr root fc
            to_ := stripRootOr root (joinPath root args.to_)
            bytes_copied := some content.length
            overwritten := false }) := by
  refine ⟨?_, ?_, ?_⟩
  · intro args content fc ra fs1 tpc rb h1 h2 h3 h4 h5 h6 hne
    simp [copy_path, h1, h2, h3, h4, h5, h6, hne]
  · intro args content fc ra fs1 tpc rb h1 h2 h3 h4 h5 h6 hne
    simp [move_path, h1, h2, h3, h4, h5, h6, hne]
  · intro args content fc ra fs1 tpc h1 h2 h3 h4 h5 h6 hm
    simp [copy_path, h1, h2, h3, h4, h5, h6, hm]

/-- C7 witness: a copy and a move between two different repositories fail
with the cross-repository errors, and the same-repository copy of a
2-byte file to a fresh destination succeeds with bytes_copied = 2. -/
theorem C7_same_repo_requirement_witness :
    (copy_path
      [(["a"], Node.dir), (["a", ".git"], Node.dir),
        (["a", "x"], Node.file ['u']), (["b"], Node.dir),
        (["b", ".git"], Node.dir)]
      ["a"]
      { from_ := ⟨true, ["a", "x"]⟩, to_ := ⟨true, ["b", "y"]⟩
        overwrite := none, recursive := none, create_parents := none }).1 =
      Except.error FsError.CopyAcrossRepos ∧
    (move_path
      [(["a"], Node.dir), (["a", ".git"], Node.dir),
        (["a", "x"], Node.file ['u']), (["b"], Node.dir),
        (["b", ".git"], Node.dir)]
      ["a"]
      { from_ := ⟨true, ["a", "x"]⟩, to_ := ⟨true, ["b", "y"]⟩
        overwrite := none, recursive := none, create_parents := none }).1 =
      Except.error FsError.MoveAcrossRepos ∧
    (copy_path
      [(["r"], Node.dir), (["r", ".git"], Node.dir),
        (["r", "a"], Node.file ['x', 'y'])]
      ["r"]
      { from_ := ⟨false, ["a"]⟩, to_ := ⟨false, ["b"]⟩
        overwrite := none, recursive := none, create_parents := none }).1 =
      Except.ok
        { from_ := ["a"], to_ := ["b"], bytes_copied := some 2
          overwritten := false } :=
  ⟨(C7_same_repo_requirement
      [(["a"], Node.dir), (["a", ".git"], Node.dir),
        (["a", "x"], Node.file ['u']), (["b"], Node.dir),
        (["b", ".git"], Node.dir)] ["a"]).1
      { from_ := ⟨true, ["a", "x"]⟩, to_ := ⟨true, ["b", "y"]⟩
        overwrite := none, recursive := none, create_parents := none }
      ['u'] ["a", "x"] ["a"] _ ["b"] ["b"]
      rfl rfl rfl rfl rfl rfl (by decide),
   (C7_same_repo_requirement
      [(["a"], Node.dir), (["a", ".git"], Node.dir),
        (["a", "x"], Node.file ['u']), (["b"], Node.dir),
        (["b", ".git"], Node.dir)] ["a"]).2.1
      { from_ := ⟨true, ["a", "x"]⟩, to_ := ⟨true, ["b", "y"]⟩
        overwrite := none, recursive := none, create_parents := none }
      ['u'] ["a", "x"] ["a"] _ ["b"] ["b"]
      rfl rfl rfl rfl rfl rfl (by decide),
   ((C7_same_repo_requirement
      [(["r"], Node.dir), (["r", ".git"], Node.dir),
        (["r", "a"], Node.file ['x', 'y'])] ["r"]).2.2
      { from_ := ⟨false, ["a"]⟩, to_ := ⟨false, ["b"]⟩
        overwrite := none, recursive := none, create_parents := none }
      ['x', 'y'] ["r", "a"] ["r"] _ ["r"]
      rfl rfl rfl rfl rfl rfl rfl).trans rfl⟩

/-- C7 counterexample: the same-repository copy of a regular file fails
with a destination-exists error when the destination already exists and
overwrite is not set, so a same-repository copy does not always
succeed. -/
theorem C7_same_repo_copy_destination_exists :
    (copy_path
      [(["r"], Node.dir), (["r", ".git"], Node.dir),
        (["r", "a"], Node.file ['x']), (["r", "b"], Node.file ['y'])]
      ["r"]
      { from_ := ⟨false, ["a"]⟩, to_ := ⟨false, ["b"]⟩
        overwrite := none, recursive := none, create_parents := none }).1 =
      Except.error FsError.DestinationExists ∧
    find_git_root
      [(["r"], Node.dir), (["r", ".git"], Node.dir),
        (["r", "a"], Node.file ['x']), (["r", "b"], Node.file ['y'])]
      ["r", "a"] = some ["r"] ∧
    find_git_root
      [(["r"], Node.dir), (["r", ".git"], Node.dir),
        (["r", "a"], Node.file ['x']), (["r", "b"], Node.file ['y'])]
      ["r"] = some ["r"] :=
  ⟨rfl, rfl, rfl⟩

/-- C10: every successful create_file result has created equal to the
negation of overwritten, and overwritten is true exactly when a regular
file already existed at the target path before the call, for every value
of the overwrite flag. -/
theorem C10_create_file_flags (fs : Fs) (root : List String)
    (args : CreateFileArgs) (res : CreateFileResult) (fs' : Fs)
    (h : create_file fs root args = (Except.ok res, fs')) :
    res.created = !res.overwritten ∧
      res.overwritten = isFileAt fs (normPath (joinPath root args.path)) := by
  simp only [create_file] at h
  split at h
  · simp at h
  · rename_i fs1 hens
    split at h
    · simp at h
    · split at h
      · simp at h
      · rename_i content hfile
        split at h
        · simp at h
        · rw [Prod.mk.injEq] at h
          obtain ⟨h1, h2⟩ := h
          injection h1 with h1
          subst h1
          refine ⟨rfl, ?_⟩
          rw [← ensure_parents_isFileAt _ _ _ _ hens]
          unfold metaAt at hfile
          unfold isFileAt
          rw [hfile]
      · rename_i hnone
        rw [Prod.mk.injEq] at h
        obtain ⟨h1, h2⟩ := h
        injection h1 with h1
        subst h1
        refine ⟨rfl, ?_⟩
        rw [← ensure_parents_isFileAt _ _ _ _ hens]
        unfold metaAt at hnone
        unfold isFileAt
        rw [hnone]

/-- C10 witness: creating a fresh file reports created = true,
overwritten = false, and no regular file pre-existed at the target. -/
theorem C10_create_file_flags_witness :
    ({ path := ["new.txt"], created := true, overwritten := false } :
        CreateFileResult).created =
      !({ path := ["new.txt"], created := true, overwritten := false } :
        CreateFileResult).overwritten ∧
    ({ path := ["new.txt"], created := true, overwritten := false } :
        CreateFileResult).overwritten =
      isFileAt [(["r"], Node.dir), (["r", ".git"], Node.dir)]
        (normPath (joinPath ["r"] ⟨false, ["new.txt"]⟩)) :=
  C10_create_file_flags [(["r"], Node.dir), (["r", ".git"], Node.dir)] ["r"]
    { path := ⟨false, ["new.txt"]⟩, content := none, overwrite := none
      create_parents := none }
    { path := ["new.txt"], created := true, overwritten := false }
    (insertFs [(["r"], Node.dir), (["r", ".git"], Node.dir)] ["r", "new.txt"]
      (Node.file []))
    rfl
